import Mathlib

/-!
Shallow embedding of `src/analysis.py` (repository zonaR).

The script loads a survey table, cleans column names
(`clean_column_names`), tabulates demographic frequencies
(`analyze_demographics`) and computes the Net Promoter Score
(`calculate_nps`).  We model a pandas `DataFrame` as a named list of
columns, a cell as either a number, a non-numeric text or a missing
value (NaN), and the pandas primitives the script calls
(`pd.to_numeric(errors=coerce)`, `dropna`, `value_counts(normalize=True)`,
`.str.lower`, `.str.normalize(NFKD)`, `.str.encode(ascii, ignore)`)
as Lean functions on those types.  Floating point numbers are modelled
by `ℚ`: every score the script handles is a short decimal, exactly
representable both as a float and as a rational.
-/

/-- A cell of the table: a numeric value, a non-numeric text (a string
that `pd.to_numeric(errors=coerce)` cannot parse; numeric text is
modelled directly as `num`), or a missing value (NaN). -/
inductive CellValue where
  | num (q : ℚ)
  | text (s : String)
  | missing
deriving DecidableEq

/-- A pandas DataFrame, modelled column-wise: a list of
(column name, column data) pairs, in column order. -/
structure DataFrame where
  cols : List (String × List CellValue)
deriving DecidableEq

/-- `df.columns` of pandas: the list of column names, in order. -/
def columns (df : DataFrame) : List String :=
  df.cols.map Prod.fst

/-- `df[name]`: the data of the first column called `name`, if any. -/
def getCol (df : DataFrame) (name : String) : Option (List CellValue) :=
  (df.cols.find? fun p => p.1 == name).map Prod.snd

/-! ### Column name cleaning (`clean_column_names`, analysis.py lines 52-57)

The source runs, per column name: `str.lower()`, then unicode NFKD
normalization, then `encode('ascii', errors='ignore')` which keeps
exactly the code points below 128.  `pyLower` and `nfkdChar` tabulate
Python's `str.lower` and the (recursively applied) NFKD decomposition
on the characters relevant here, exactly as in the Unicode database:
full ASCII, the Spanish accented letters, the ordinal indicators
U+00AA/U+00BA, and U+2102 DOUBLE-STRUCK CAPITAL C (category Lu, no
lowercase mapping, compatibility decomposition to `C`).  Characters
outside the table are left unchanged; since NFKD canonical reordering
only permutes combining marks (all non-ASCII), it cannot change the
ASCII subsequence that survives the `ascii`/`ignore` step, so it is
not modelled. -/

/-- Python `str.lower`, per character (as a one-or-more character
string, as Python full case mappings allow). -/
def pyLower (c : Char) : List Char :=
  if c.toNat < 128 then
    if 'A' ≤ c ∧ c ≤ 'Z' then [Char.ofNat (c.toNat + 32)] else [c]
  else match c with
  | 'Á' => ['á']
  | 'É' => ['é']
  | 'Í' => ['í']
  | 'Ó' => ['ó']
  | 'Ú' => ['ú']
  | 'Ñ' => ['ñ']
  | 'Ü' => ['ü']
  | _ => [c]

/-- Unicode NFKD decomposition of one character (fully applied);
ASCII characters decompose to themselves. -/
def nfkdChar (c : Char) : List Char :=
  if c.toNat < 128 then [c]
  else match c with
  | 'á' => ['a', '\u0301']
  | 'é' => ['e', '\u0301']
  | 'í' => ['i', '\u0301']
  | 'ó' => ['o', '\u0301']
  | 'ú' => ['u', '\u0301']
  | 'ñ' => ['n', '\u0303']
  | 'ü' => ['u', '\u0308']
  | 'Á' => ['A', '\u0301']
  | 'É' => ['E', '\u0301']
  | 'Í' => ['I', '\u0301']
  | 'Ó' => ['O', '\u0301']
  | 'Ú' => ['U', '\u0301']
  | 'Ñ' => ['N', '\u0303']
  | 'Ü' => ['U', '\u0308']
  | 'ª' => ['a']
  | 'º' => ['o']
  | 'ℂ' => ['C']
  | _ => [c]

/-- The character pipeline of `clean_column_names`: lowercase, NFKD,
keep only ASCII (code points below 128). -/
def cleanChars (s : List Char) : List Char :=
  ((s.flatMap pyLower).flatMap nfkdChar).filter fun c => decide (c.toNat < 128)

/-- One column name through
`.str.lower().str.normalize('NFKD').str.encode('ascii', errors='ignore').str.decode('utf-8')`. -/
def cleanName (s : String) : String :=
  String.mk (cleanChars s.data)

/-- `clean_column_names` (analysis.py lines 32-62): replaces every
column name by its cleaned form, keeping the data. -/
def clean_column_names (df : DataFrame) : DataFrame :=
  ⟨df.cols.map fun p => (cleanName p.1, p.2)⟩

/-- An ASCII uppercase letter.  The cleaner's output is all-ASCII, so
on it "is lowercase" is exactly "contains no such character". -/
def isUpperAscii (c : Char) : Bool :=
  decide ('A' ≤ c) && decide (c ≤ 'Z')

/-- A string with no ASCII uppercase letter. -/
def noUpperAscii (s : String) : Bool :=
  s.data.all fun c => !(isUpperAscii c)

/-! ### NPS (`calculate_nps`, analysis.py lines 88-132) -/

/-- `pd.to_numeric(value, errors='coerce')` on one cell: the number for
a numeric cell, NaN (here `none`) for non-numeric text and for missing. -/
def to_numeric : CellValue → Option ℚ
  | CellValue.num q => some q
  | CellValue.text _ => none
  | CellValue.missing => none

/-- `pd.to_numeric(df['nps'], errors='coerce').dropna()`: the numeric
values of the column, in order, NaNs dropped (lines 108-111). -/
def nps_scores (col : List CellValue) : List ℚ :=
  col.filterMap to_numeric

/-- `nps_scores >= 9` (line 113). -/
def isPromoterScore (q : ℚ) : Bool := decide (9 ≤ q)

/-- `nps_scores.between(7, 8)`, both ends inclusive (line 114). -/
def isPassiveScore (q : ℚ) : Bool := decide (7 ≤ q ∧ q ≤ 8)

/-- `nps_scores <= 6` (line 115). -/
def isDetractorScore (q : ℚ) : Bool := decide (q ≤ 6)

/-- `promoters = (nps_scores >= 9).sum()`. -/
def promoters (scores : List ℚ) : ℕ := (scores.filter isPromoterScore).length

/-- `passives = nps_scores.between(7, 8).sum()`. -/
def passives (scores : List ℚ) : ℕ := (scores.filter isPassiveScore).length

/-- `detractors = (nps_scores <= 6).sum()`. -/
def detractors (scores : List ℚ) : ℕ := (scores.filter isDetractorScore).length

/-- `total_respondents = len(nps_scores)` (line 117). -/
def total_respondents (scores : List ℚ) : ℕ := scores.length

/-- `promoter_percentage = (promoters / total_respondents) * 100` (line 123). -/
def promoter_percentage (scores : List ℚ) : ℚ :=
  ((promoters scores : ℚ) / (total_respondents scores : ℚ)) * 100

/-- `detractor_percentage = (detractors / total_respondents) * 100` (line 124). -/
def detractor_percentage (scores : List ℚ) : ℚ :=
  ((detractors scores : ℚ) / (total_respondents scores : ℚ)) * 100

/-- The quantities `calculate_nps` prints on the success path. -/
structure NPSResult where
  total : ℕ
  promoters : ℕ
  passives : ℕ
  detractors : ℕ
  promoter_percentage : ℚ
  detractor_percentage : ℚ
  nps_score : ℚ
deriving DecidableEq

/-- The success-path record of `calculate_nps` (lines 117-132),
with `nps_score = promoter_percentage - detractor_percentage` (line 126). -/
def nps_result (scores : List ℚ) : NPSResult :=
  { total := total_respondents scores
    promoters := promoters scores
    passives := passives scores
    detractors := detractors scores
    promoter_percentage := promoter_percentage scores
    detractor_percentage := detractor_percentage scores
    nps_score := promoter_percentage scores - detractor_percentage scores }

/-- The three ways `calculate_nps` can end: the warning when the `nps`
column is absent (line 104), the `[INFO] No valid NPS scores found`
early return (line 120), or the printed result. -/
inductive NPSOutput where
  | noColumn
  | noData
  | result (r : NPSResult)
deriving DecidableEq

/-- `calculate_nps` (analysis.py lines 88-132). -/
def calculate_nps (df : DataFrame) : NPSOutput :=
  match getCol df "nps" with
  | none => NPSOutput.noColumn
  | some col =>
    let scores := nps_scores col
    if total_respondents scores = 0 then NPSOutput.noData
    else NPSOutput.result (nps_result scores)

/-! ### Demographics (`analyze_demographics`, analysis.py lines 64-86) -/

/-- The cells `value_counts` counts: the non-NaN entries of the column,
in order. -/
def nonMissing (col : List CellValue) : List CellValue :=
  col.filter fun v => decide (v ≠ CellValue.missing)

/-- Round to two decimal places, ties to even, as numpy/pandas
`.round(2)` does. -/
def round2 (q : ℚ) : ℚ :=
  let x := q * 100
  let f : ℤ := Int.floor x
  let n : ℤ :=
    if x - (f : ℚ) < 1 / 2 then f
    else if 1 / 2 < x - (f : ℚ) then f + 1
    else if f % 2 = 0 then f else f + 1
  (n : ℚ) / 100

/-- `df[var].value_counts(normalize=True).mul(100).round(2)` (line 84):
for each distinct non-missing value, its share of the non-missing rows
as a percentage rounded to two decimals.  `value_counts` presents the
table sorted by descending count; that display ordering is not modelled
(the spec leaves it unguaranteed across ties), the table is kept in
first-occurrence order. -/
def value_counts_pct (col : List CellValue) : List (CellValue × ℚ) :=
  let vals := nonMissing col
  vals.dedup.map fun v =>
    (v, round2 (((vals.count v : ℚ) / (vals.length : ℚ)) * 100))

/-- `demographic_vars = ['sexo', 'edad_tramo', 'depto']` (line 79). -/
def demographic_vars : List String := ["sexo", "edad_tramo", "depto"]

/-- One printed block per demographic variable: the `[INFO]` block with
the percentage table, or the `[WARNING] Column not found` line. -/
inductive DemoEvent where
  | info (var : String) (table : List (CellValue × ℚ))
  | warning (var : String)
deriving DecidableEq

/-- `analyze_demographics` (analysis.py lines 64-86): for each expected
variable in order, tabulate it if the column exists, warn otherwise. -/
def analyze_demographics (df : DataFrame) : List DemoEvent :=
  demographic_vars.map fun var =>
    match getCol df var with
    | some col => DemoEvent.info var (value_counts_pct col)
    | none => DemoEvent.warning var

/-! ### Helper lemmas -/

/-- A name that is not among the column names looks up to nothing. -/
theorem getCol_eq_none_of_not_mem (df : DataFrame) (name : String)
    (h : name ∉ columns df) : getCol df name = none := by
  unfold getCol
  rw [List.find?_eq_none.mpr]
  · rfl
  · intro p hp hbeq
    exact h (List.mem_map.mpr ⟨p, hp, by simpa using hbeq⟩)

/-- Every character the cleaner emits is ASCII. -/
theorem cleanChars_ascii (s : List Char) :
    ∀ c ∈ cleanChars s, c.toNat < 128 := by
  intro c hc
  have := (List.mem_filter.mp hc).2
  simpa using this

/-- `str.lower` leaves an ASCII character that is not an uppercase
letter unchanged. -/
theorem pyLower_ascii_fix (c : Char) (hA : c.toNat < 128)
    (hU : isUpperAscii c = false) : pyLower c = [c] := by
  unfold pyLower
  rw [if_pos hA, if_neg]
  intro h
  have hT : isUpperAscii c = true := by simp [isUpperAscii, h.1, h.2]
  rw [hU] at hT
  exact Bool.false_ne_true hT

/-- NFKD leaves an ASCII character unchanged. -/
theorem nfkdChar_ascii (c : Char) (hA : c.toNat < 128) : nfkdChar c = [c] := by
  unfold nfkdChar
  rw [if_pos hA]

/-- The cleaning pipeline fixes strings of ASCII characters with no
uppercase letter. -/
theorem cleanChars_fix (l : List Char)
    (h : ∀ c ∈ l, c.toNat < 128 ∧ isUpperAscii c = false) :
    cleanChars l = l := by
  induction l with
  | nil => rfl
  | cons a t ih =>
    have ha := h a (List.mem_cons_self a t)
    have ht := ih fun c hc => h c (List.mem_cons_of_mem a hc)
    unfold cleanChars at ht ⊢
    simp only [List.flatMap_cons, pyLower_ascii_fix a ha.1 ha.2,
      List.singleton_append, nfkdChar_ascii a ha.1, List.filter_append,
      List.filter_cons]
    simp [ha.1, ht]

/-- Rounding to two decimals moves a rational by at most `1/200`. -/
theorem abs_round2_sub_le (q : ℚ) : |round2 q - q| ≤ 1 / 200 := by
  simp only [round2]
  have hfl : (⌊q * 100⌋ : ℚ) ≤ q * 100 := Int.floor_le _
  have hfu : q * 100 < (⌊q * 100⌋ : ℚ) + 1 := Int.lt_floor_add_one _
  have key : ∀ n : ℤ, |(n : ℚ) - q * 100| ≤ 1 / 2 → |(n : ℚ) / 100 - q| ≤ 1 / 200 := by
    intro n hn
    have : (n : ℚ) / 100 - q = ((n : ℚ) - q * 100) / 100 := by ring
    rw [this, abs_div]
    rw [show |(100 : ℚ)| = 100 by norm_num]
    linarith [hn]
  split_ifs with h1 h2 h3
  · exact key _ (by rw [abs_le]; constructor <;> linarith)
  · exact key _ (by rw [abs_le]; push_cast; constructor <;> linarith)
  · have hhalf : q * 100 - (⌊q * 100⌋ : ℚ) = 1 / 2 := le_antisymm (not_lt.mp h2) (not_lt.mp h1)
    exact key _ (by rw [abs_le]; constructor <;> linarith)
  · have hhalf : q * 100 - (⌊q * 100⌋ : ℚ) = 1 / 2 := le_antisymm (not_lt.mp h2) (not_lt.mp h1)
    exact key _ (by rw [abs_le]; push_cast; constructor <;> linarith)

/-- Rounding each entry of a list moves its sum by at most
`length / 200`. -/
theorem abs_sum_round2_sub_le (l : List ℚ) :
    |(l.map round2).sum - l.sum| ≤ (l.length : ℚ) / 200 := by
  induction l with
  | nil => simp
  | cons a t ih =>
    simp only [List.map_cons, List.sum_cons, List.length_cons]
    have h1 : round2 a + (t.map round2).sum - (a + t.sum) =
        (round2 a - a) + ((t.map round2).sum - t.sum) := by ring
    rw [h1]
    calc |(round2 a - a) + ((t.map round2).sum - t.sum)|
        ≤ |round2 a - a| + |(t.map round2).sum - t.sum| := abs_add _ _
      _ ≤ 1 / 200 + (t.length : ℚ) / 200 := add_le_add (abs_round2_sub_le a) ih
      _ = ((t.length : ℚ) + 1) / 200 := by ring
      _ = (((t.length : ℕ) + 1 : ℕ) : ℚ) / 200 := by push_cast; ring

/-! ### Claims -/

/-- C1 (amended): the three score bands of `calculate_nps` are pairwise
disjoint for every numeric value, and their union covers every integer
value in `[0, 10]`; a non-integer value in the gaps `(6, 7)` or `(8, 9)`
falls in no band. -/
theorem nps_bands_partition (v : ℚ) :
    ¬(isDetractorScore v = true ∧ isPassiveScore v = true) ∧
    ¬(isPassiveScore v = true ∧ isPromoterScore v = true) ∧
    ¬(isDetractorScore v = true ∧ isPromoterScore v = true) ∧
    (0 ≤ v → v ≤ 10 → v.den = 1 →
      isDetractorScore v = true ∨ isPassiveScore v = true ∨ isPromoterScore v = true) := by
  simp only [isDetractorScore, isPassiveScore, isPromoterScore, decide_eq_true_eq]
  refine ⟨?_, ?_, ?_, fun h0 h10 hden => ?_⟩
  · rintro ⟨h1, h2, h3⟩
    linarith
  · rintro ⟨⟨h1, h2⟩, h3⟩
    linarith
  · rintro ⟨h1, h2⟩
    linarith
  · have hn : (v.num : ℚ) = v := Rat.coe_int_num_of_den_eq_one hden
    have h0i : (0 : ℤ) ≤ v.num := by
      rw [← hn] at h0
      exact_mod_cast h0
    have h10i : v.num ≤ 10 := by
      rw [← hn] at h10
      exact_mod_cast h10
    have hcases : v.num ≤ 6 ∨ (7 ≤ v.num ∧ v.num ≤ 8) ∨ 9 ≤ v.num := by omega
    rcases hcases with h | ⟨h1, h2⟩ | h
    · exact Or.inl (by rw [← hn]; exact_mod_cast h)
    · exact Or.inr (Or.inl ⟨by rw [← hn]; exact_mod_cast h1, by rw [← hn]; exact_mod_cast h2⟩)
    · exact Or.inr (Or.inr (by rw [← hn]; exact_mod_cast h))

/-- Witness for C1: the integer score 5 lands in a band. -/
theorem nps_bands_partition_witness :
    (0 : ℚ) ≤ 5 ∧ (5 : ℚ) ≤ 10 ∧ (5 : ℚ).den = 1 ∧
    (isDetractorScore 5 = true ∨ isPassiveScore 5 = true ∨ isPromoterScore 5 = true) :=
  ⟨by norm_num, by norm_num, by norm_num,
    (nps_bands_partition 5).2.2.2 (by norm_num) (by norm_num) (by norm_num)⟩

/-- Counterexample for C1 as stated: the numeric value `13/2 = 6.5`
lies in `[0, 10]` yet `calculate_nps` puts it in no band. -/
theorem nps_bands_gap_cex :
    (0 : ℚ) ≤ 13 / 2 ∧ (13 : ℚ) / 2 ≤ 10 ∧ isDetractorScore (13 / 2) = false ∧
    isPassiveScore (13 / 2) = false ∧ isPromoterScore (13 / 2) = false := by
  refine ⟨by norm_num, by norm_num, ?_, ?_, ?_⟩ <;>
    simp only [isDetractorScore, isPassiveScore, isPromoterScore,
      decide_eq_false_iff_not, not_and_or, not_le] <;> norm_num

/-- C5: on the score column `[9, 9, 7, 3, 0]`, `calculate_nps` reports
2 promoters, 1 passive, 2 detractors, 5 respondents and NPS
`100*(2/5) - 100*(2/5) = 0`. -/
theorem nps_sample_values :
    calculate_nps ⟨[("nps", [CellValue.num 9, CellValue.num 9, CellValue.num 7,
      CellValue.num 3, CellValue.num 0])]⟩ =
    NPSOutput.result ⟨5, 2, 1, 2, 40, 40, 0⟩ := by
  norm_num [calculate_nps, getCol, List.find?, nps_scores, to_numeric, nps_result,
    promoters, passives, detractors, total_respondents, promoter_percentage,
    detractor_percentage, isPromoterScore, isPassiveScore, isDetractorScore,
    List.filterMap, List.filter, NPSResult.mk.injEq]

/-- C2: whenever the count of numeric `nps` values is positive,
`calculate_nps` produces the result record, its score equals
`100*(promoters/total) - 100*(detractors/total)`, and that score lies
in `[-100, 100]`. -/
theorem nps_score_formula (df : DataFrame) (col : List CellValue)
    (hcol : getCol df "nps" = some col)
    (hT : 0 < total_respondents (nps_scores col)) :
    calculate_nps df = NPSOutput.result (nps_result (nps_scores col)) ∧
    (nps_result (nps_scores col)).nps_score =
      100 * ((promoters (nps_scores col) : ℚ) / (total_respondents (nps_scores col) : ℚ)) -
      100 * ((detractors (nps_scores col) : ℚ) / (total_respondents (nps_scores col) : ℚ)) ∧
    -100 ≤ (nps_result (nps_scores col)).nps_score ∧
    (nps_result (nps_scores col)).nps_score ≤ 100 := by
  refine ⟨?_, ?_, ?_, ?_⟩
  · unfold calculate_nps
    rw [hcol]
    simp [Nat.pos_iff_ne_zero.mp hT]
  · simp only [nps_result, promoter_percentage, detractor_percentage]
    ring
  all_goals
  · have hTQ : (0 : ℚ) < (total_respondents (nps_scores col) : ℚ) := by exact_mod_cast hT
    have hP : (promoters (nps_scores col) : ℚ) ≤ (total_respondents (nps_scores col) : ℚ) := by
      exact_mod_cast List.length_filter_le isPromoterScore (nps_scores col)
    have hD : (detractors (nps_scores col) : ℚ) ≤ (total_respondents (nps_scores col) : ℚ) := by
      exact_mod_cast List.length_filter_le isDetractorScore (nps_scores col)
    have hP1 : (promoters (nps_scores col) : ℚ) / (total_respondents (nps_scores col) : ℚ) ≤ 1 :=
      (div_le_one hTQ).mpr hP
    have hD1 : (detractors (nps_scores col) : ℚ) / (total_respondents (nps_scores col) : ℚ) ≤ 1 :=
      (div_le_one hTQ).mpr hD
    have hP0 : (0 : ℚ) ≤ (promoters (nps_scores col) : ℚ) / (total_respondents (nps_scores col) : ℚ) :=
      div_nonneg (Nat.cast_nonneg _) hTQ.le
    have hD0 : (0 : ℚ) ≤ (detractors (nps_scores col) : ℚ) / (total_respondents (nps_scores col) : ℚ) :=
      div_nonneg (Nat.cast_nonneg _) hTQ.le
    simp only [nps_result, promoter_percentage, detractor_percentage]
    linarith

/-- Witness for C2: a column with scores 10, 0 and 5. -/
theorem nps_score_formula_witness :
    getCol ⟨[("nps", [CellValue.num 10, CellValue.num 0, CellValue.num 5])]⟩ "nps" =
      some [CellValue.num 10, CellValue.num 0, CellValue.num 5] ∧
    0 < total_respondents (nps_scores [CellValue.num 10, CellValue.num 0, CellValue.num 5]) ∧
    (-100 ≤ (nps_result (nps_scores [CellValue.num 10, CellValue.num 0, CellValue.num 5])).nps_score ∧
      (nps_result (nps_scores [CellValue.num 10, CellValue.num 0, CellValue.num 5])).nps_score ≤ 100) :=
  ⟨rfl, by decide,
    (nps_score_formula ⟨[("nps", [CellValue.num 10, CellValue.num 0, CellValue.num 5])]⟩
      [CellValue.num 10, CellValue.num 0, CellValue.num 5] rfl (by decide)).2.2⟩

/-- C4: numeric values outside `[0, 10]` are not excluded: a numeric
cell `v` always joins the score list (hence the total `T`), any
`v ≤ 6` (negatives included) adds one detractor, and any `9 ≤ v`
(values above 10 included) adds one promoter. -/
theorem nps_out_of_range_counted (col : List CellValue) (v : ℚ) :
    nps_scores (col ++ [CellValue.num v]) = nps_scores col ++ [v] ∧
    total_respondents (nps_scores (col ++ [CellValue.num v])) =
      total_respondents (nps_scores col) + 1 ∧
    (v ≤ 6 → detractors (nps_scores (col ++ [CellValue.num v])) =
      detractors (nps_scores col) + 1) ∧
    (9 ≤ v → promoters (nps_scores (col ++ [CellValue.num v])) =
      promoters (nps_scores col) + 1) := by
  have hs : nps_scores (col ++ [CellValue.num v]) = nps_scores col ++ [v] := by
    simp [nps_scores, List.filterMap_append, to_numeric]
  refine ⟨hs, ?_, fun hv => ?_, fun hv => ?_⟩
  · simp [hs, total_respondents]
  · simp [hs, detractors, List.filter_append, List.filter_cons, isDetractorScore, hv]
  · simp [hs, promoters, List.filter_append, List.filter_cons, isPromoterScore, hv]

/-- Witness for C4: the out-of-range scores -3 and 11 on the empty
column are counted as detractor and promoter respectively. -/
theorem nps_out_of_range_counted_witness :
    ((-3 : ℚ) ≤ 6 ∧ detractors (nps_scores ([] ++ [CellValue.num (-3)])) =
      detractors (nps_scores []) + 1) ∧
    (9 ≤ (11 : ℚ) ∧ promoters (nps_scores ([] ++ [CellValue.num 11])) =
      promoters (nps_scores []) + 1) :=
  ⟨⟨by norm_num, (nps_out_of_range_counted [] (-3)).2.2.1 (by norm_num)⟩,
   ⟨by norm_num, (nps_out_of_range_counted [] 11).2.2.2 (by norm_num)⟩⟩

/-- C6: when the `nps` column holds no value coercible to a number,
`calculate_nps` stops at the `No valid NPS scores found` signal and
produces no score. -/
theorem nps_no_data (df : DataFrame) (col : List CellValue)
    (hcol : getCol df "nps" = some col)
    (h0 : total_respondents (nps_scores col) = 0) :
    calculate_nps df = NPSOutput.noData ∧
    ∀ r, calculate_nps df ≠ NPSOutput.result r := by
  have h : calculate_nps df = NPSOutput.noData := by
    unfold calculate_nps
    rw [hcol]
    simp [h0]
  exact ⟨h, fun r => by rw [h]; exact fun hr => NPSOutput.noConfusion hr⟩

/-- Witness for C6: a column of one non-numeric text and one missing
cell yields the no-data signal. -/
theorem nps_no_data_witness :
    calculate_nps ⟨[("nps", [CellValue.text "edad", CellValue.missing])]⟩ =
      NPSOutput.noData :=
  (nps_no_data ⟨[("nps", [CellValue.text "edad", CellValue.missing])]⟩
    [CellValue.text "edad", CellValue.missing] rfl (by decide)).1

/-- C7: a cell that fails numeric coercion is silently excluded: it
never enters the score list, leaves all band counts and the total
unchanged, and the whole output of `calculate_nps` is as if the cell
were absent. -/
theorem nps_noncoercible_excluded (pre post : List CellValue) (v : CellValue)
    (hv : to_numeric v = none) :
    nps_scores (pre ++ [v] ++ post) = nps_scores (pre ++ post) ∧
    total_respondents (nps_scores (pre ++ [v] ++ post)) =
      total_respondents (nps_scores (pre ++ post)) ∧
    promoters (nps_scores (pre ++ [v] ++ post)) = promoters (nps_scores (pre ++ post)) ∧
    passives (nps_scores (pre ++ [v] ++ post)) = passives (nps_scores (pre ++ post)) ∧
    detractors (nps_scores (pre ++ [v] ++ post)) = detractors (nps_scores (pre ++ post)) ∧
    calculate_nps ⟨[("nps", pre ++ [v] ++ post)]⟩ =
      calculate_nps ⟨[("nps", pre ++ post)]⟩ := by
  have hs : nps_scores (pre ++ [v] ++ post) = nps_scores (pre ++ post) := by
    simp [nps_scores, List.filterMap_append, hv]
  refine ⟨hs, by rw [hs], by rw [hs], by rw [hs], by rw [hs], ?_⟩
  have h1 : getCol ⟨[("nps", pre ++ [v] ++ post)]⟩ "nps" = some (pre ++ [v] ++ post) := rfl
  have h2 : getCol ⟨[("nps", pre ++ post)]⟩ "nps" = some (pre ++ post) := rfl
  unfold calculate_nps
  rw [h1, h2]
  dsimp only
  rw [hs]

/-- Witness for C7: a text cell between two scores changes nothing. -/
theorem nps_noncoercible_excluded_witness :
    to_numeric (CellValue.text "no sabe") = none ∧
    calculate_nps ⟨[("nps", [CellValue.num 9] ++ [CellValue.text "no sabe"] ++ [CellValue.num 3])]⟩ =
      calculate_nps ⟨[("nps", [CellValue.num 9] ++ [CellValue.num 3])]⟩ :=
  ⟨rfl, (nps_noncoercible_excluded [CellValue.num 9] [CellValue.num 3]
    (CellValue.text "no sabe") rfl).2.2.2.2.2⟩

/-- C3 (amended): `clean_column_names` always rewrites the column-name
sequence name by name (same length, same order) and every produced
name is pure ASCII; and, whenever no character of an input name
turns into an uppercase ASCII letter after lowercasing and NFKD
decomposition (as the caseless `'ℂ'` does), every produced name is
moreover lowercase. -/
theorem clean_column_names_spec (df : DataFrame) :
    columns (clean_column_names df) = (columns df).map cleanName ∧
    (∀ name ∈ columns (clean_column_names df), ∀ c ∈ name.data, c.toNat < 128) ∧
    ((∀ name ∈ columns df, ∀ c ∈ name.data,
        ∀ d ∈ (pyLower c).flatMap nfkdChar, isUpperAscii d = false) →
      ∀ name ∈ columns (clean_column_names df), noUpperAscii name = true) := by
  have hcols : columns (clean_column_names df) = (columns df).map cleanName := by
    simp [clean_column_names, columns, List.map_map]
  refine ⟨hcols, ?_, ?_⟩
  · intro name hname c hc
    rw [hcols] at hname
    obtain ⟨orig, _, rfl⟩ := List.mem_map.mp hname
    exact cleanChars_ascii orig.data c hc
  · intro h name hname
    rw [hcols] at hname
    obtain ⟨orig, horig, rfl⟩ := List.mem_map.mp hname
    rw [noUpperAscii, List.all_eq_true]
    intro c hc
    have hc2 : c ∈ (orig.data.flatMap pyLower).flatMap nfkdChar :=
      List.mem_of_mem_filter hc
    obtain ⟨b, hb, hcb⟩ := List.mem_flatMap.mp hc2
    obtain ⟨a, ha, hab⟩ := List.mem_flatMap.mp hb
    have := h orig horig a ha c (List.mem_flatMap.mpr ⟨b, hab, hcb⟩)
    simp [this]

/-- Witness for C3: columns `Año` and `EDAD` clean to ASCII lowercase
names, in order. -/
theorem clean_column_names_spec_witness :
    columns (clean_column_names ⟨[("Año", []), ("EDAD", [])]⟩) =
      (columns ⟨[("Año", []), ("EDAD", [])]⟩).map cleanName ∧
    (∀ name ∈ columns (clean_column_names ⟨[("Año", []), ("EDAD", [])]⟩),
      noUpperAscii name = true) := by
  refine ⟨(clean_column_names_spec ⟨[("Año", []), ("EDAD", [])]⟩).1,
    (clean_column_names_spec ⟨[("Año", []), ("EDAD", [])]⟩).2.2 (by decide)⟩

/-- Counterexample for C3 as stated: the column name `ℂ` (U+2102, a
letter with no lowercase form whose NFKD decomposition is `C`) is
cleaned to `C`, which contains an uppercase letter. -/
theorem clean_column_names_uppercase_cex :
    columns (clean_column_names ⟨[("ℂ", [])]⟩) = ["C"] ∧
    noUpperAscii "C" = false := by
  exact ⟨rfl, rfl⟩

/-- C10 (amended): cleaning a column name twice equals cleaning it
once whenever the first pass produced a lowercase name; on a name it
leaves uppercase (possible only through a caseless character that
decomposes to an uppercase letter) a second pass lowers it further. -/
theorem cleanName_idem (s : String) (h : noUpperAscii (cleanName s) = true) :
    cleanName (cleanName s) = cleanName s := by
  simp only [noUpperAscii, cleanName, List.all_eq_true] at h
  unfold cleanName
  congr 1
  apply cleanChars_fix
  intro c hc
  refine ⟨cleanChars_ascii s.data c hc, ?_⟩
  have := h c hc
  simpa using this

/-- Witness for C10: one pass over `Año` gives the lowercase `ano`,
and a second pass keeps it. -/
theorem cleanName_idem_witness :
    noUpperAscii (cleanName "Año") = true ∧
    cleanName (cleanName "Año") = cleanName "Año" :=
  ⟨by decide, cleanName_idem "Año" (by decide)⟩

/-- Counterexample for C10 as stated: cleaning `ℂ` once gives `C`,
cleaning it twice gives `c`, so the normalization is not idempotent. -/
theorem cleanName_not_idem_cex :
    cleanName (cleanName "ℂ") ≠ cleanName "ℂ" := by decide

/-- C8: a demographic variable absent from the columns produces the
warning event at its position in the report, while every present
variable still produces its tabulation; all three expected variables
are always processed. -/
theorem demographics_missing_warns (df : DataFrame) (i : ℕ)
    (hi : i < demographic_vars.length)
    (habs : demographic_vars[i] ∉ columns df) :
    (analyze_demographics df).length = demographic_vars.length ∧
    (analyze_demographics df)[i]? = some (DemoEvent.warning demographic_vars[i]) ∧
    ∀ j, (hj : j < demographic_vars.length) → ∀ colj,
      getCol df demographic_vars[j] = some colj →
      (analyze_demographics df)[j]? =
        some (DemoEvent.info demographic_vars[j] (value_counts_pct colj)) := by
  refine ⟨by simp [analyze_demographics], ?_, ?_⟩
  · have hnone : getCol df demographic_vars[i] = none :=
      getCol_eq_none_of_not_mem df _ habs
    unfold analyze_demographics
    rw [List.getElem?_map, List.getElem?_eq_getElem hi]
    simp [hnone]
  · intro j hj colj hcolj
    unfold analyze_demographics
    rw [List.getElem?_map, List.getElem?_eq_getElem hj]
    simp [hcolj]

/-- Witness for C8: with `sexo` and `edad_tramo` present but `depto`
absent, the third report entry is the warning. -/
theorem demographics_missing_warns_witness :
    2 < demographic_vars.length ∧
    (analyze_demographics ⟨[("sexo", [CellValue.text "F"]),
      ("edad_tramo", [CellValue.missing])]⟩)[2]? =
      some (DemoEvent.warning "depto") := by
  refine ⟨by decide, ?_⟩
  exact (demographics_missing_warns ⟨[("sexo", [CellValue.text "F"]),
    ("edad_tramo", [CellValue.missing])]⟩ 2 (by decide) (by decide)).2.1

/-- The unrounded shares of a nonempty list sum to exactly 100. -/
theorem sum_shares {α : Type} [DecidableEq α] (l : List α) (hl : l ≠ []) :
    (l.dedup.map fun v => (l.count v : ℚ) / (l.length : ℚ) * 100).sum = 100 := by
  have h1 : 0 < l.length := List.length_pos.mpr hl
  have hT : (l.length : ℚ) ≠ 0 := by exact_mod_cast h1.ne'
  have key : ∀ d : List α,
      (d.map fun v => (l.count v : ℚ) / (l.length : ℚ) * 100).sum =
      ((d.map fun v => l.count v).sum : ℚ) / (l.length : ℚ) * 100 := by
    intro d
    induction d with
    | nil => simp
    | cons a t ih =>
      simp only [List.map_cons, List.sum_cons, ih]
      push_cast
      ring
  rw [key, List.sum_map_count_dedup_eq_length]
  field_simp

/-- C9: a present demographic column with at least one non-missing
value is tabulated in the report; each observed value gets its count
as a share of the non-missing rows (times 100, rounded to two
decimals), the unrounded shares sum to exactly 100, and the rounded
ones sum to 100 up to `1/200` per category. -/
theorem demographics_pct_sum (df : DataFrame) (var : String) (col : List CellValue)
    (hvar : var ∈ demographic_vars) (hcol : getCol df var = some col)
    (hne : nonMissing col ≠ []) :
    DemoEvent.info var (value_counts_pct col) ∈ analyze_demographics df ∧
    ((nonMissing col).dedup.map fun v =>
      ((nonMissing col).count v : ℚ) / ((nonMissing col).length : ℚ) * 100).sum = 100 ∧
    |((value_counts_pct col).map Prod.snd).sum - 100| ≤
      ((value_counts_pct col).length : ℚ) / 200 := by
  have hsum := sum_shares (nonMissing col) hne
  refine ⟨?_, hsum, ?_⟩
  · unfold analyze_demographics
    refine List.mem_map.mpr ⟨var, hvar, ?_⟩
    rw [hcol]
  · have h3 : (value_counts_pct col).map Prod.snd =
        ((nonMissing col).dedup.map fun v =>
          ((nonMissing col).count v : ℚ) / ((nonMissing col).length : ℚ) * 100).map round2 := by
      simp [value_counts_pct, List.map_map]
    have h4 : (value_counts_pct col).length =
        ((nonMissing col).dedup.map fun v =>
          ((nonMissing col).count v : ℚ) / ((nonMissing col).length : ℚ) * 100).length := by
      simp [value_counts_pct]
    have hb := abs_sum_round2_sub_le ((nonMissing col).dedup.map fun v =>
      ((nonMissing col).count v : ℚ) / ((nonMissing col).length : ℚ) * 100)
    rw [hsum] at hb
    rw [h3, h4]
    exact hb

/-- Witness for C9: the column `[F, F, M, missing]` of `sexo` gives
shares 66.67 and 33.33, summing to 100 within tolerance. -/
theorem demographics_pct_sum_witness :
    DemoEvent.info "sexo" (value_counts_pct [CellValue.text "F", CellValue.text "F",
        CellValue.text "M", CellValue.missing]) ∈
      analyze_demographics ⟨[("sexo", [CellValue.text "F", CellValue.text "F",
        CellValue.text "M", CellValue.missing])]⟩ ∧
    |((value_counts_pct [CellValue.text "F", CellValue.text "F",
        CellValue.text "M", CellValue.missing]).map Prod.snd).sum - 100| ≤
      ((value_counts_pct [CellValue.text "F", CellValue.text "F",
        CellValue.text "M", CellValue.missing]).length : ℚ) / 200 := by
  have h := demographics_pct_sum ⟨[("sexo", [CellValue.text "F", CellValue.text "F",
    CellValue.text "M", CellValue.missing])]⟩ "sexo"
    [CellValue.text "F", CellValue.text "F", CellValue.text "M", CellValue.missing]
    (by decide) rfl (by decide)
  exact ⟨h.1, h.2.2⟩
